import Mathlib

/-!
Verification of the linkedin-connect repository core.

This file gives a shallow embedding of the four components the claims are
about, translated from the TypeScript source:

- src/lib/encryption.ts       (encrypt / decrypt record framing)
- src/app/api/linkedin/status/route.ts   (the poll side of the handoff)
- src/scripts/fetch-posts.ts  (collection: precheck, extraction, dedup, window)
- src/scripts/fetch-post-analytics.ts    (enrichment loop and impressions filter)

Machine strings are Lean String / List Char; bytes are Nat with explicit
bounds where the code relies on byte ranges.  The Node crypto primitives
(createCipheriv / createDecipheriv with the scrypt-derived key) are modelled
as an abstract keyed block cipher satisfying the library's contract (a
CipherSuite); everything the repository itself implements - hex framing,
the colon delimiter, the lenient hex decoding of Buffer.from(s, hex), the
split / shift / join flow of decrypt - is translated directly.
-/

/-! ## Generic string helpers (semantics of the JS string operations used) -/

/-- Semantics of JS s.split(sep) for a one-character separator: splits at every
occurrence, the empty string splits to a single empty part. -/
def splitOnChar (sep : Char) : List Char → List (List Char)
  | [] => [[]]
  | c :: rest =>
    if c = sep then [] :: splitOnChar sep rest
    else
      match splitOnChar sep rest with
      | [] => [[c]]
      | p :: ps => (c :: p) :: ps

/-- Semantics of JS parts.join(sep) for a one-character separator. -/
def joinOnChar (sep : Char) : List (List Char) → List Char
  | [] => []
  | [x] => x
  | x :: y :: rest => x ++ sep :: joinOnChar sep (y :: rest)

/-- Whitespace test used to model JS String.prototype.trim. -/
def isWS (c : Char) : Bool := c = ' ' || c = '\t' || c = '\n' || c = '\r'

/-- Model of JS s.trim(): drop whitespace from both ends. -/
def trimWS (l : List Char) : List Char := ((l.dropWhile isWS).reverse.dropWhile isWS).reverse

/-- String wrapper for trimWS. -/
def trimS (s : String) : String := String.mk (trimWS s.data)

/-- Naive substring test: does the needle occur contiguously in the haystack. -/
def startsWithChars : List Char → List Char → Bool
  | _, [] => true
  | [], _ :: _ => false
  | h :: hs, n :: ns => h = n && startsWithChars hs ns

/-- Semantics of JS s.includes(pat): pat occurs as a contiguous substring. -/
def containsSub (needle : List Char) : List Char → Bool
  | [] => needle.isEmpty
  | c :: rest => startsWithChars (c :: rest) needle || containsSub needle rest

/-- String wrapper for containsSub: JS s.includes(pat). -/
def strContains (s pat : String) : Bool := containsSub pat.data s.data

/-- First component of s.split(sep), as used by href.split(c)[0]. -/
def headSplit (sep : Char) (s : String) : String :=
  String.mk ((splitOnChar sep s.data).headD [])

/-- Model of text.replace(non-digit-regex, empty).parseInt with the JS
or-zero fallback: keep the decimal digits of the string and read them as a
number; no digits gives 0 (parseInt of the empty string is NaN, and the
code appends a logical-or-zero). -/
def parseIntDigits (s : String) : Nat :=
  (s.data.filter Char.isDigit).foldl (fun a c => a * 10 + (c.toNat - 48)) 0

/-! ## Hex encoding and decoding

Node Buffer semantics, from src/lib/encryption.ts usage:
buf.toString(hex) emits two lowercase hex digits per byte, and
Buffer.from(s, hex) is lenient: it decodes pairs of hex digits from the
start and truncates at the first invalid character (or at a dangling odd
digit) instead of rejecting the input. -/

/-- Lowercase hex digit for a value below 16. -/
def hexDigitChar (n : Nat) : Char :=
  if n < 10 then Char.ofNat (48 + n) else Char.ofNat (87 + n)

/-- Node buf.toString(hex): two lowercase digits per byte. -/
def hexEncodeBytes : List Nat → List Char
  | [] => []
  | b :: bs => hexDigitChar (b / 16) :: hexDigitChar (b % 16) :: hexEncodeBytes bs

/-- Value of a hex digit character; accepts both cases as Node does. -/
def hexDigitVal (c : Char) : Option Nat :=
  if 48 ≤ c.toNat ∧ c.toNat ≤ 57 then some (c.toNat - 48)
  else if 97 ≤ c.toNat ∧ c.toNat ≤ 102 then some (c.toNat - 87)
  else if 65 ≤ c.toNat ∧ c.toNat ≤ 70 then some (c.toNat - 55)
  else none

/-- Node Buffer.from(s, hex): decode hex pairs, truncating at the first
invalid character or dangling digit.  This leniency (no rejection) is
load-bearing for the decrypt validation claims. -/
def hexDecodeChars : List Char → List Nat
  | c1 :: c2 :: rest =>
    match hexDigitVal c1, hexDigitVal c2 with
    | some h, some l => (16 * h + l) :: hexDecodeChars rest
    | _, _ => []
  | _ => []

/-- Every character of the string is a hex digit. -/
def isHexString (s : String) : Bool := s.data.all fun c => (hexDigitVal c).isSome

/-! ## CredentialVault: src/lib/encryption.ts -/

/-- Failures decrypt can throw: the explicit invalid-format throw for an
empty first part, the createDecipheriv rejection of an IV that is not 16
bytes, and a decipher update / final failure (bad ciphertext length or
padding).  The spec groups all of these under DecodeError. -/
inductive DecodeFailure where
  | invalidFormat
  | invalidIV
  | badDecrypt
deriving DecidableEq

/-- Abstraction of the Node crypto primitives used by encryption.ts: the
AES-256-CBC cipher keyed by scryptSync(SECRET_KEY, salt, 32), presented as
a keyed block cipher on byte lists.  blockEnc iv s is
cipher.update(s) concat cipher.final(); blockDec iv ct is the deciphering
of ct, none when update / final throws.  The three laws are the library
contract the repository relies on: ciphertexts are bytes, deciphering an
honest ciphertext with its IV returns the plaintext (which also forces
ciphertexts to be non-empty), and deciphering an empty ciphertext throws
(CBC final requires at least one block). -/
structure CipherSuite where
  blockEnc : List Nat → String → List Nat
  blockDec : List Nat → List Nat → Option String
  blockEnc_lt : ∀ iv s b, b ∈ blockEnc iv s → b < 256
  blockDec_blockEnc : ∀ iv s, blockDec iv (blockEnc iv s) = some s
  blockDec_nil : ∀ iv, blockDec iv [] = none

/-- encryption.ts encrypt: a fresh 16-byte random IV (passed explicitly
here, randomness being external), the ciphertext of the text, each hex
encoded and joined with a single colon. -/
def encrypt (C : CipherSuite) (iv : List Nat) (text : String) : String :=
  String.mk (hexEncodeBytes iv ++ ':' :: hexEncodeBytes (C.blockEnc iv text))

/-- encryption.ts decrypt: split on every colon, shift the first part and
throw if it is empty, hex-decode it as the IV (createDecipheriv throws
unless that gives 16 bytes), re-join the remaining parts with colons and
hex-decode them as the ciphertext, then decipher. -/
def decrypt (C : CipherSuite) (text : String) : Except DecodeFailure String :=
  match splitOnChar ':' text.data with
  | [] => .error .invalidFormat
  | ivPart :: rest =>
    if ivPart = [] then .error .invalidFormat
    else
      let iv := hexDecodeChars ivPart
      if iv.length = 16 then
        match C.blockDec iv (hexDecodeChars (joinOnChar ':' rest)) with
        | none => .error .badDecrypt
        | some s => .ok s
      else .error .invalidIV

/-- Four-byte big-endian encoding of a character code point, used to build a
concrete witness cipher. -/
def charEnc4 : List Char → List Nat
  | [] => []
  | c :: cs =>
    c.toNat / 16777216 :: c.toNat % 16777216 / 65536 ::
      c.toNat % 65536 / 256 :: c.toNat % 256 :: charEnc4 cs

/-- Inverse of charEnc4. -/
def charDec4 : List Nat → List Char
  | b0 :: b1 :: b2 :: b3 :: rest =>
    Char.ofNat (b0 * 16777216 + b1 * 65536 + b2 * 256 + b3) :: charDec4 rest
  | _ => []

/-- A concrete cipher suite satisfying the library contract, used to
instantiate witnesses: the plaintext code points in big-endian bytes with a
one-byte trailer so ciphertexts are never empty. -/
def idSuite : CipherSuite where
  blockEnc := fun _ s => charEnc4 s.data ++ [1]
  blockDec := fun _ bs => if bs.isEmpty then none else some (String.mk (charDec4 bs.dropLast))
  blockEnc_lt := by
    intro iv s b hb
    have key : ∀ l : List Char, ∀ b : Nat, b ∈ charEnc4 l ++ [1] → b < 256 := by
      intro l
      induction l with
      | nil =>
        intro b hb
        simp only [charEnc4, List.nil_append, List.mem_singleton] at hb
        omega
      | cons c cs ih =>
        intro b hb
        have hc : c.toNat < 4294967296 := c.val.toNat_lt
        simp only [charEnc4, List.cons_append, List.mem_cons] at hb
        rcases hb with h | h | h | h | h
        · omega
        · omega
        · omega
        · omega
        · exact ih b (by simpa using h)
    exact key s.data b hb
  blockDec_blockEnc := by
    intro iv s
    have hne : (charEnc4 s.data ++ [1]).isEmpty = false := by
      cases h : charEnc4 s.data ++ [1] with
      | nil => exact absurd h (by simp)
      | cons x xs => rfl
    show (if (charEnc4 s.data ++ [1]).isEmpty = true then none
        else some (String.mk (charDec4 (charEnc4 s.data ++ [1]).dropLast))) = some s
    rw [hne]
    simp only [Bool.false_eq_true, if_false, List.dropLast_concat]
    have key : ∀ l : List Char, charDec4 (charEnc4 l) = l := by
      intro l
      induction l with
      | nil => rfl
      | cons c cs ih =>
        simp only [charEnc4, charDec4, ih, List.cons.injEq, and_true]
        have harith :
            c.toNat / 16777216 * 16777216 + c.toNat % 16777216 / 65536 * 65536 +
              c.toNat % 65536 / 256 * 256 + c.toNat % 256 = c.toNat := by
          omega
        rw [harith, Char.ofNat_toNat]
    rw [key]
  blockDec_nil := by intro iv; rfl

/-! ## SessionBroker poll side: src/app/api/linkedin/status/route.ts

The handoff artifact is the file linkedin-session-(id).json in the OS temp
directory; the producer (scripts/linkedin-login.js) writes exactly one JSON
document, either status success with the cookie or status timeout.  The
consumer state is the artifact store keyed by session id, the
linkedin_accounts table rows, and whether the database insert succeeds.
Contents that JSON.parse rejects are modelled by the malformed constructor. -/

/-- An account row of the linkedin_accounts table as inserted by the route
(the random uuid primary key and the timestamp defaults are elided). -/
structure Account where
  user_id : String
  li_at_encrypted : String
deriving DecidableEq

/-- Contents of a handoff artifact file: a parseable success document with
the cookie, a parseable timeout document, or bytes JSON.parse throws on. -/
inductive ArtifactContent where
  | success (cookie : String)
  | timeout
  | malformed
deriving DecidableEq

/-- State visible to the status route: the artifact files by session id,
the inserted account rows in order, and whether the insert statement
succeeds when run. -/
structure BrokerState where
  artifacts : String → Option ArtifactContent
  accounts : List Account
  dbOk : Bool

/-- Responses of the status route, in the route's own vocabulary:
badRequest is the 400 for a missing session id, errorSave the 500 with
message failed-to-save-account, errorRead the 500 with message
failed-to-read-session-data, timeoutStatus the passthrough of a parsed
timeout document. -/
inductive PollResponse where
  | badRequest
  | waiting
  | connected
  | timeoutStatus
  | errorSave
  | errorRead
deriving DecidableEq

/-- Delete the artifact file of one session id (fs.unlinkSync). -/
def removeArtifact (s : BrokerState) (id : String) : BrokerState :=
  { s with artifacts := fun k => if k = id then none else s.artifacts k }

/-- The GET handler of the status route.  encryptF is the encrypt call it
makes on the observed cookie (a fresh random IV makes it non-deterministic,
so it is passed in).  Flow, exactly as in the source: missing or empty
session id gives 400; a missing artifact file gives waiting; an existing
file is read and parsed - a parse failure is caught and reported as
errorRead with the file left in place, since the unlink comes after the
parse; a parsed document is unlinked first, then a success document has its
cookie encrypted and inserted (insert failure caught as errorSave), and any
other parsed document is passed through (timeout). -/
def pollGET (encryptF : String → String) (s : BrokerState) (sessionId : Option String) :
    PollResponse × BrokerState :=
  match sessionId with
  | none => (.badRequest, s)
  | some id =>
    if id = "" then (.badRequest, s)
    else
      match s.artifacts id with
      | none => (.waiting, s)
      | some .malformed => (.errorRead, s)
      | some (.success cookie) =>
        if s.dbOk then
          (.connected,
            { removeArtifact s id with
              accounts := s.accounts ++ [{ user_id := "demo-user", li_at_encrypted := encryptF cookie }] })
        else (.errorSave, removeArtifact s id)
      | some .timeout => (.timeoutStatus, removeArtifact s id)

/-- n+1 successive polls of the same session id, returning the last
response and the state after it. -/
def pollN (encryptF : String → String) (s : BrokerState) (id : String) :
    Nat → PollResponse × BrokerState
  | 0 => pollGET encryptF s (some id)
  | n + 1 => pollGET encryptF (pollN encryptF s id n).2 (some id)

/-! ## CollectionPipeline: src/scripts/fetch-posts.ts

The browser is abstracted as an environment: the outcome of the feed
navigation, the URL the page lands on, and the DOM snapshot the extraction
evaluate call sees after the scroll phase.  The extraction, deduplication
and windowing phases are translated directly. -/

/-- The sub-description node of a feed item: the optional aria-hidden span
and the node's own text content (textContent of a present node, with the
JS null-coalescing to the empty string folded in). -/
structure SubDescNode where
  ariaHiddenText : Option String
  text : String
deriving DecidableEq

/-- One div.feed-shared-update-v2 element as the extraction sees it: its
data-urn attribute, the hrefs of its anchors in document order, and its
optional sub-description node. -/
structure DomUpdate where
  dataUrn : Option String
  links : List String
  subDesc : Option SubDescNode
deriving DecidableEq

/-- A raw extracted item of phase 2. -/
structure RawExtract where
  postUrn : String
  postUrl : String
  timeText : String
deriving DecidableEq

/-- An entry of the collection artifact data/posts.json. -/
structure SavedPost where
  postUrn : String
  postUrl : String
  posted_at : String
deriving DecidableEq, Inhabited

/-- First anchor href that matches the known post URL shapes (the for-of
loop with break). -/
def matchingHref (links : List String) : Option String :=
  links.find? fun h =>
    strContains h "/feed/update/urn:li:activity:" || strContains h "/posts/"

/-- The raw time text of an item: the aria-hidden span's text if that span
exists, else the sub-description's own text, trimmed, then cut before the
first bullet and trimmed again; empty when there is no sub-description. -/
def extractTimeText (u : DomUpdate) : String :=
  match u.subDesc with
  | none => ""
  | some sd =>
    let base := match sd.ariaHiddenText with
      | some t => t
      | none => sd.text
    trimS (headSplit '•' (trimS base))

/-- Extraction of one feed item (the forEach body of the page.evaluate of
phase 2): items whose data-urn attribute is missing or empty are skipped;
the URL is the first matching anchor href cut at the query string, else
synthesized from the urn. -/
def extractOne (u : DomUpdate) : Option RawExtract :=
  let urn := u.dataUrn.getD ""
  if urn = "" then none
  else
    let postUrl :=
      match matchingHref u.links with
      | some href => headSplit '?' href
      | none => "https://www.linkedin.com/feed/update/" ++ urn ++ "/"
    some { postUrn := urn, postUrl := postUrl, timeText := extractTimeText u }

/-- Phase 2: extract every loaded feed item, in DOM order. -/
def extractAll (updates : List DomUpdate) : List RawExtract :=
  updates.filterMap extractOne

/-- Rename on save: timeText is stored as posted_at. -/
def toSaved (i : RawExtract) : SavedPost :=
  { postUrn := i.postUrn, postUrl := i.postUrl, posted_at := i.timeText }

/-- One step of the phase 3 loop over a JS Map in insertion order: skip an
empty urn, skip an already-seen urn, else append. -/
def phase3Step (m : List SavedPost) (item : RawExtract) : List SavedPost :=
  if item.postUrn = "" then m
  else if m.any fun p => p.postUrn = item.postUrn then m
  else m ++ [toSaved item]

/-- Phases 3 and 4 of fetch-posts: deduplicate by urn keeping first-seen
order, then keep the first 30 (Array.from(map.values()).slice(0, 30)). -/
def phase3 (items : List RawExtract) : List SavedPost :=
  (items.foldl phase3Step []).take 30

/-- Modelled from the spec: first-occurrence deduplication by urn in
first-seen order, written the way section 4.4 of the spec words it, to be
compared with the phase3 translation of the code. -/
def specDedupGo (seen : List String) : List RawExtract → List RawExtract
  | [] => []
  | i :: rest =>
    if i.postUrn ∈ seen then specDedupGo seen rest
    else i :: specDedupGo (i.postUrn :: seen) rest

/-- Modelled from the spec: entry point of specDedupGo with nothing seen. -/
def specDedupFirstSeen (items : List RawExtract) : List RawExtract :=
  specDedupGo [] items

/-- How a fetch-posts run ends: no account row, an uncaught exception (the
outer catch), the caught redirect-loop navigation error, the session
precheck abort, or a completed run. -/
inductive FetchPostsOutcome where
  | noAccount
  | fatalError
  | cookieInvalid
  | sessionInvalid
  | completed
deriving DecidableEq

/-- The environment of one fetch-posts run: the newest account row (the
select with order by created_at desc limit 1), the error message of the
feed navigation if page.goto threw, the URL the page reports afterwards,
whether anything after validation throws (activity navigation, scroll or
extraction evaluate), and the DOM snapshot phase 2 sees. -/
structure FetchPostsEnv where
  account : Option Account
  gotoFeedError : Option String
  currentUrl : String
  runFatal : Bool
  dom : List DomUpdate

/-- Observable result of a fetch-posts run: how it ended, the content
written to data/posts.json (none when the run never reaches the phase 4
write, which is the only write to that file), and whether the scroll phase
ran. -/
structure FetchPostsResult where
  outcome : FetchPostsOutcome
  written : Option (List SavedPost)
  scrolled : Bool
deriving DecidableEq

/-- The run from after session validation: the URL check against the login
and guest markers aborts before the scroll phase; otherwise the scroll,
extraction, dedup and write phases run (a throw anywhere in them reaches
the outer catch and nothing is written). -/
def fetchPostsValidated (env : FetchPostsEnv) : FetchPostsResult :=
  if strContains env.currentUrl "login" || strContains env.currentUrl "guest" then
    { outcome := .sessionInvalid, written := none, scrolled := false }
  else if env.runFatal then
    { outcome := .fatalError, written := none, scrolled := false }
  else
    { outcome := .completed, written := some (phase3 (extractAll env.dom)), scrolled := true }

/-- fetchPosts of src/scripts/fetch-posts.ts: abort without an account row;
decrypt the stored token (a decrypt throw reaches the outer catch); a
navigation error matching the redirect-loop or aborted markers returns
early, any other navigation error is swallowed and the run continues to the
URL check. -/
def fetchPosts (C : CipherSuite) (env : FetchPostsEnv) : FetchPostsResult :=
  match env.account with
  | none => { outcome := .noAccount, written := none, scrolled := false }
  | some account =>
    match decrypt C account.li_at_encrypted with
    | .error _ => { outcome := .fatalError, written := none, scrolled := false }
    | .ok _ =>
      match env.gotoFeedError with
      | some s =>
        if strContains s "ERR_TOO_MANY_REDIRECTS" || strContains s "ERR_ABORTED" then
          { outcome := .cookieInvalid, written := none, scrolled := false }
        else fetchPostsValidated env
      | none => fetchPostsValidated env

/-! ## EnrichmentPipeline: src/scripts/fetch-post-analytics.ts

The per-item page.evaluate runs in the browser against the live detail
page; its result object (content, image, date, the three count fields and
the impressions text resolved by the two-tier heuristic) is supplied by the
environment per urn, as is a navigation failure.  Everything the Node side
does with that object - the zero-impressions drop, the per-item catch, the
final defensive filter and the artifact write - is translated directly. -/

/-- The object returned by the per-item page.evaluate. -/
structure EvalData where
  content : String
  imageUrl : String
  date : String
  likes : Nat
  comments : Nat
  reposts : Nat
  impressionsText : String
deriving DecidableEq

/-- What the browser does for one item: the navigation or evaluation throws
(per-item catch) or yields the evaluate result. -/
inductive PageOutcome where
  | navFail
  | page (d : EvalData)

/-- An entry of the enrichment artifact data/posts_enriched.json: the
spread of the post record, the spread of the evaluate result, and the
parsed impressions count. -/
structure EnrichedPost where
  postUrn : String
  postUrl : String
  posted_at : String
  content : String
  imageUrl : String
  date : String
  likes : Nat
  comments : Nat
  reposts : Nat
  impressionsText : String
  impressions : Nat
deriving DecidableEq, Inhabited

/-- Spread of the post and evaluate records plus the impressions count. -/
def mkEnriched (p : SavedPost) (d : EvalData) (n : Nat) : EnrichedPost :=
  { postUrn := p.postUrn, postUrl := p.postUrl, posted_at := p.posted_at,
    content := d.content, imageUrl := d.imageUrl, date := d.date,
    likes := d.likes, comments := d.comments, reposts := d.reposts,
    impressionsText := d.impressionsText, impressions := n }

/-- Mutable state of the enrichment loop: the results array, the urns whose
iteration hit the per-item catch, and the urns navigated to, in order. -/
structure EnrichState where
  results : List EnrichedPost
  errors : List String
  visited : List String
deriving DecidableEq

/-- One iteration of the for-of loop: navigate (append to visited), on a
throw append to the per-item error log and continue, otherwise parse the
impressions text; a zero count is skipped silently, a positive count
appends the enriched record. -/
def enrichStep (env : String → PageOutcome) (st : EnrichState) (p : SavedPost) : EnrichState :=
  let st1 := { st with visited := st.visited ++ [p.postUrn] }
  match env p.postUrn with
  | .navFail => { st1 with errors := st1.errors ++ [p.postUrn] }
  | .page d =>
    let n := parseIntDigits d.impressionsText
    if n = 0 then st1
    else { st1 with results := st1.results ++ [mkEnriched p d n] }

/-- The for-of loop over the target posts.  The urn of an item is read as
post.postUrn with a fallback that splits post.url - a field the collection
artifact does not have - so an item with an empty postUrn throws a
TypeError outside the per-item try and aborts the whole batch (outer
catch, nothing written): that is the none case. -/
def enrichLoop (env : String → PageOutcome) :
    List SavedPost → EnrichState → Option EnrichState
  | [], st => some st
  | p :: rest, st =>
    if p.postUrn = "" then none
    else enrichLoop env rest (enrichStep env st p)

/-- Observable result of a completed fetch-analytics run: the array written
to data/posts_enriched.json and the error and navigation logs. -/
structure AnalyticsResult where
  written : List EnrichedPost
  errors : List String
  visited : List String
deriving DecidableEq

/-- fetchAnalytics of src/scripts/fetch-post-analytics.ts, from the parsed
posts file onward (a missing posts file also aborts with no write, like the
empty list): an empty post list, a missing account row, a decrypt throw or
a loop abort all end the run with nothing written; otherwise the loop runs
over posts.slice(0, 5) and the final defensive filter re-applies the
positive-impressions predicate to the accumulated results before the
write. -/
def fetchAnalytics (C : CipherSuite) (account : Option Account)
    (env : String → PageOutcome) (posts : List SavedPost) : Option AnalyticsResult :=
  if posts.isEmpty then none
  else
    match account with
    | none => none
    | some a =>
      match decrypt C a.li_at_encrypted with
      | .error _ => none
      | .ok _ =>
        match enrichLoop env (posts.take 5) { results := [], errors := [], visited := [] } with
        | none => none
        | some st =>
          some { written := st.results.filter fun r => decide (0 < parseIntDigits r.impressionsText),
                 errors := st.errors, visited := st.visited }

/-! ## Concrete fixtures used by witnesses and counterexamples -/

/-- A 16-byte all-zero IV. -/
def ivZeros : List Nat := List.replicate 16 0

/-- Broker state with one pending success artifact and a working insert. -/
def brokerOk : BrokerState :=
  { artifacts := fun k => if k = "s1" then some (.success "tok") else none,
    accounts := [], dbOk := true }

/-- Broker state with one pending success artifact and a failing insert. -/
def brokerDbDown : BrokerState :=
  { artifacts := fun k => if k = "s1" then some (.success "tok") else none,
    accounts := [], dbOk := false }

/-- Broker state whose artifact file for s1 holds unparseable bytes. -/
def brokerBadFile : BrokerState :=
  { artifacts := fun k => if k = "s1" then some .malformed else none,
    accounts := [], dbOk := true }

/-- An account row whose token decrypts under the witness cipher. -/
def acctW : Account := { user_id := "demo-user", li_at_encrypted := encrypt idSuite ivZeros "tok" }

/-- Evaluate result with a positive impressions phrase. -/
def dPos : EvalData :=
  { content := "", imageUrl := "", date := "", likes := 0, comments := 0, reposts := 0,
    impressionsText := "1,234" }

/-- Evaluate result whose impressions text parses to zero. -/
def dZero : EvalData :=
  { content := "", imageUrl := "", date := "", likes := 0, comments := 0, reposts := 0,
    impressionsText := "0" }

/-- Six distinct references; the enrichment loop must leave the sixth
untouched. -/
def posts6 : List SavedPost :=
  [ { postUrn := "u1", postUrl := "", posted_at := "" },
    { postUrn := "u2", postUrl := "", posted_at := "" },
    { postUrn := "u3", postUrl := "", posted_at := "" },
    { postUrn := "u4", postUrl := "", posted_at := "" },
    { postUrn := "u5", postUrl := "", posted_at := "" },
    { postUrn := "u6", postUrl := "", posted_at := "" } ]

/-- Environment in which every post detail page reports impressions. -/
def envAllPos : String → PageOutcome := fun _ => .page dPos

/-- Two references, the first resolving to zero impressions. -/
def postsZP : List SavedPost :=
  [ { postUrn := "z1", postUrl := "", posted_at := "" },
    { postUrn := "p1", postUrl := "", posted_at := "" } ]

/-- Environment giving z1 a zero count and p1 a positive count. -/
def envZP : String → PageOutcome := fun u => if u = "z1" then .page dZero else .page dPos

/-- The dedup example of the spec: A, A, B in that order (the two A items
differ in their url so first-seen wins observably). -/
def exAAB : List RawExtract :=
  [ { postUrn := "A", postUrl := "url-one", timeText := "" },
    { postUrn := "A", postUrl := "url-two", timeText := "" },
    { postUrn := "B", postUrl := "url-three", timeText := "" } ]

/-- The windowing example of the spec: 45 distinct raw items. -/
def ex45 : List RawExtract :=
  (List.range 45).map fun n => { postUrn := "urn" ++ toString n, postUrl := "", timeText := "" }

/-- Environment of a run whose feed navigation lands on the login page. -/
def envLogin : FetchPostsEnv :=
  { account := some acctW, gotoFeedError := none,
    currentUrl := "https://www.linkedin.com/login", runFatal := false, dom := [] }

/-- A DOM snapshot with an item missing its urn attribute, one with an
empty urn attribute, and one complete item. -/
def dom10 : List DomUpdate :=
  [ { dataUrn := none, links := [], subDesc := none },
    { dataUrn := some "", links := [], subDesc := none },
    { dataUrn := some "urnX",
      links := ["https://www.linkedin.com/posts/abc?x=1"],
      subDesc := some { ariaHiddenText := some "2w • Edited", text := "ignored" } } ]

/-- Raw items with an empty urn, for the phase 3 guard. -/
def items10 : List RawExtract :=
  [ { postUrn := "", postUrl := "", timeText := "" },
    { postUrn := "C", postUrl := "", timeText := "" } ]

/-! ## Hex and split lemmas -/

theorem hexDigitVal_hexDigitChar : ∀ n, n < 16 → hexDigitVal (hexDigitChar n) = some n := by
  decide

theorem hexDigitChar_ne_colon : ∀ n, n < 16 → hexDigitChar n ≠ ':' := by
  decide

theorem mem_hexEncodeBytes_ne_colon :
    ∀ bs : List Nat, (∀ b ∈ bs, b < 256) → ∀ c ∈ hexEncodeBytes bs, c ≠ ':' := by
  intro bs
  induction bs with
  | nil => intro _ c hc; simp [hexEncodeBytes] at hc
  | cons b rest ih =>
    intro hb c hc
    have hb0 : b < 256 := hb b (by simp)
    simp only [hexEncodeBytes, List.mem_cons] at hc
    rcases hc with h | h | h
    · exact h ▸ hexDigitChar_ne_colon (b / 16) (by omega)
    · exact h ▸ hexDigitChar_ne_colon (b % 16) (by omega)
    · exact ih (fun x hx => hb x (List.mem_cons_of_mem b hx)) c h

theorem hexDecodeChars_hexEncodeBytes_append :
    ∀ (bs : List Nat) (t : List Char), (∀ b ∈ bs, b < 256) →
      hexDecodeChars (hexEncodeBytes bs ++ t) = bs ++ hexDecodeChars t := by
  intro bs
  induction bs with
  | nil => intro t _; rfl
  | cons b rest ih =>
    intro t hb
    have hb0 : b < 256 := hb b (by simp)
    simp only [hexEncodeBytes, List.cons_append]
    show hexDecodeChars (hexDigitChar (b / 16) :: hexDigitChar (b % 16) ::
      (hexEncodeBytes rest ++ t)) = (b :: rest) ++ hexDecodeChars t
    rw [hexDecodeChars]
    rw [hexDigitVal_hexDigitChar (b / 16) (by omega), hexDigitVal_hexDigitChar (b % 16) (by omega)]
    rw [ih t (fun x hx => hb x (List.mem_cons_of_mem b hx))]
    simp only [List.cons_append, List.cons.injEq, and_true]
    omega

theorem hexDecodeChars_hexEncodeBytes (bs : List Nat) (hb : ∀ b ∈ bs, b < 256) :
    hexDecodeChars (hexEncodeBytes bs) = bs := by
  have := hexDecodeChars_hexEncodeBytes_append bs [] hb
  simpa [hexDecodeChars] using this

theorem splitOnChar_no_sep (sep : Char) :
    ∀ l : List Char, (∀ c ∈ l, c ≠ sep) → splitOnChar sep l = [l] := by
  intro l
  induction l with
  | nil => intro _; rfl
  | cons c rest ih =>
    intro h
    have hc : c ≠ sep := h c (by simp)
    simp only [splitOnChar, if_neg hc]
    rw [ih (fun x hx => h x (List.mem_cons_of_mem c hx))]

theorem splitOnChar_append_sep (sep : Char) :
    ∀ (l r : List Char), (∀ c ∈ l, c ≠ sep) →
      splitOnChar sep (l ++ sep :: r) = l :: splitOnChar sep r := by
  intro l
  induction l with
  | nil =>
    intro r _
    simp [splitOnChar]
  | cons c rest ih =>
    intro r h
    have hc : c ≠ sep := h c (by simp)
    simp only [List.cons_append, splitOnChar, if_neg hc, List.append_eq]
    rw [ih r (fun x hx => h x (List.mem_cons_of_mem c hx))]

theorem joinOnChar_single (sep : Char) (x : List Char) : joinOnChar sep [x] = x := rfl

theorem decrypt_cons (C : CipherSuite) (text : String) (ivPart : List Char)
    (rest : List (List Char)) (h : splitOnChar ':' text.data = ivPart :: rest) :
    decrypt C text =
      (if ivPart = [] then .error .invalidFormat
       else
         let iv := hexDecodeChars ivPart
         if iv.length = 16 then
           match C.blockDec iv (hexDecodeChars (joinOnChar ':' rest)) with
           | none => .error .badDecrypt
           | some s => .ok s
         else .error .invalidIV) := by
  unfold decrypt
  rw [h]

/-- C4: for every string s, including the empty string and non-ASCII
strings, and every 16-byte IV, decrypting the encryption of s returns s:
encrypt emits the hex IV and hex ciphertext joined by a single colon, and
decrypt inverts that framing and the cipher.  The fresh random IV of the
source is the explicit iv argument; the cipher laws are the Node crypto
contract. -/
theorem claimC4_roundtrip (C : CipherSuite) (iv : List Nat) (s : String)
    (hlen : iv.length = 16) (hbytes : ∀ b ∈ iv, b < 256) :
    decrypt C (encrypt C iv s) = .ok s := by
  have hct : ∀ b ∈ C.blockEnc iv s, b < 256 := fun b hb => C.blockEnc_lt iv s b hb
  have hivhex := mem_hexEncodeBytes_ne_colon iv hbytes
  have hcthex := mem_hexEncodeBytes_ne_colon (C.blockEnc iv s) hct
  have hsplit : splitOnChar ':' (encrypt C iv s).data =
      hexEncodeBytes iv :: [hexEncodeBytes (C.blockEnc iv s)] := by
    show splitOnChar ':'
        (hexEncodeBytes iv ++ ':' :: hexEncodeBytes (C.blockEnc iv s)) = _
    rw [splitOnChar_append_sep ':' _ _ hivhex, splitOnChar_no_sep ':' _ hcthex]
  rw [decrypt_cons C _ _ _ hsplit]
  have hne : hexEncodeBytes iv ≠ [] := by
    cases iv with
    | nil => simp at hlen
    | cons b bs => simp [hexEncodeBytes]
  rw [if_neg hne]
  show (if (hexDecodeChars (hexEncodeBytes iv)).length = 16 then
      match C.blockDec (hexDecodeChars (hexEncodeBytes iv))
        (hexDecodeChars (joinOnChar ':' [hexEncodeBytes (C.blockEnc iv s)])) with
      | none => Except.error DecodeFailure.badDecrypt
      | some s => Except.ok s
    else Except.error DecodeFailure.invalidIV) = Except.ok s
  rw [joinOnChar_single, hexDecodeChars_hexEncodeBytes iv hbytes,
    hexDecodeChars_hexEncodeBytes _ hct, if_pos hlen, C.blockDec_blockEnc iv s]

/-- Witness for C4 at a concrete cipher, IV and string. -/
theorem claimC4_roundtrip_witness :
    decrypt idSuite (encrypt idSuite ivZeros "ok") = .ok "ok" :=
  claimC4_roundtrip idSuite ivZeros "ok" (by decide) (by decide)

/-- C3 counterexample: the claim demands that decrypt fail on every input
whose two halves are not both valid hex, but appending a non-hex character
to the IV half of an honest record is silently truncated away by the
lenient hex decoding and decrypt succeeds.  The record below is the
encryption of the string hi under the witness cipher with a Z injected at
the end of the IV half: the delimiter is present, the first half is not
valid hex, and decrypt returns ok. -/
theorem claimC3_counterexample :
    decrypt idSuite "00000000000000000000000000000000Z:000000680000006901" = .ok "hi" ∧
    strContains "00000000000000000000000000000000Z:000000680000006901" ":" = true ∧
    isHexString "00000000000000000000000000000000Z" = false :=
  ⟨rfl, rfl, rfl⟩

/-- C3 as amended: decrypt fails on every input without a delimiter (in
particular on the two spec examples), and more generally whenever the
leniently hex-decoded first part is not exactly 16 bytes; but it does not
validate the halves as hex - Node hex decoding truncates at the first
invalid character instead of rejecting, so a record with a non-hex first
half can decrypt successfully (third conjunct, the shape behind the
counterexample). -/
theorem claimC3_amended :
    (∀ (C : CipherSuite) (text : String), ':' ∉ text.data →
      ∃ e, decrypt C text = .error e) ∧
    (∀ (C : CipherSuite) (text : String) (ivPart : List Char) (rest : List (List Char)),
      splitOnChar ':' text.data = ivPart :: rest → (hexDecodeChars ivPart).length ≠ 16 →
      ∃ e, decrypt C text = .error e) ∧
    (∀ (C : CipherSuite) (iv : List Nat) (s : String),
      iv.length = 16 → (∀ b ∈ iv, b < 256) →
      decrypt C (String.mk
        (hexEncodeBytes iv ++ 'Z' :: ':' :: hexEncodeBytes (C.blockEnc iv s))) = .ok s ∧
      isHexString (String.mk (hexEncodeBytes iv ++ ['Z'])) = false) := by
  refine ⟨?_, ?_, ?_⟩
  · intro C text hno
    have hall : ∀ c ∈ text.data, c ≠ ':' := fun c hc he => hno (he ▸ hc)
    have hsplit : splitOnChar ':' text.data = [text.data] :=
      splitOnChar_no_sep ':' text.data hall
    rw [decrypt_cons C text text.data [] hsplit]
    by_cases hd : text.data = []
    · exact ⟨.invalidFormat, by rw [if_pos hd]⟩
    · rw [if_neg hd]
      show ∃ e, (if (hexDecodeChars text.data).length = 16 then
          match C.blockDec (hexDecodeChars text.data)
            (hexDecodeChars (joinOnChar ':' ([] : List (List Char)))) with
          | none => Except.error DecodeFailure.badDecrypt
          | some s => Except.ok s
        else Except.error DecodeFailure.invalidIV) = .error e
      by_cases hl : (hexDecodeChars text.data).length = 16
      · refine ⟨.badDecrypt, ?_⟩
        rw [if_pos hl]
        show (match C.blockDec (hexDecodeChars text.data) (hexDecodeChars []) with
          | none => Except.error DecodeFailure.badDecrypt
          | some s => Except.ok s) = _
        rw [show hexDecodeChars [] = [] from rfl, C.blockDec_nil]
      · exact ⟨.invalidIV, by rw [if_neg hl]⟩
  · intro C text ivPart rest hsplit hlen
    rw [decrypt_cons C text ivPart rest hsplit]
    by_cases hip : ivPart = []
    · exact ⟨.invalidFormat, by rw [if_pos hip]⟩
    · rw [if_neg hip]
      exact ⟨.invalidIV, by
        show (if (hexDecodeChars ivPart).length = 16 then _ else
          Except.error DecodeFailure.invalidIV) = _
        rw [if_neg hlen]⟩
  · intro C iv s hlen hbytes
    have hct : ∀ b ∈ C.blockEnc iv s, b < 256 := fun b hb => C.blockEnc_lt iv s b hb
    have hivhex := mem_hexEncodeBytes_ne_colon iv hbytes
    have hcthex := mem_hexEncodeBytes_ne_colon (C.blockEnc iv s) hct
    have hfirst : ∀ c ∈ hexEncodeBytes iv ++ ['Z'], c ≠ ':' := by
      intro c hc
      rcases List.mem_append.mp hc with h | h
      · exact hivhex c h
      · simp only [List.mem_singleton] at h
        rw [h]; decide
    constructor
    · have hsplit : splitOnChar ':' (String.mk
          (hexEncodeBytes iv ++ 'Z' :: ':' :: hexEncodeBytes (C.blockEnc iv s))).data =
          (hexEncodeBytes iv ++ ['Z']) :: [hexEncodeBytes (C.blockEnc iv s)] := by
        show splitOnChar ':'
            (hexEncodeBytes iv ++ 'Z' :: ':' :: hexEncodeBytes (C.blockEnc iv s)) = _
        have hassoc : hexEncodeBytes iv ++ 'Z' :: ':' :: hexEncodeBytes (C.blockEnc iv s) =
            (hexEncodeBytes iv ++ ['Z']) ++ ':' :: hexEncodeBytes (C.blockEnc iv s) := by
          simp
        rw [hassoc, splitOnChar_append_sep ':' _ _ hfirst, splitOnChar_no_sep ':' _ hcthex]
      rw [decrypt_cons C _ _ _ hsplit]
      have hne : hexEncodeBytes iv ++ ['Z'] ≠ [] := by simp
      rw [if_neg hne]
      have hdec : hexDecodeChars (hexEncodeBytes iv ++ ['Z']) = iv := by
        rw [hexDecodeChars_hexEncodeBytes_append iv ['Z'] hbytes]
        simp [hexDecodeChars]
      show (if (hexDecodeChars (hexEncodeBytes iv ++ ['Z'])).length = 16 then
          match C.blockDec (hexDecodeChars (hexEncodeBytes iv ++ ['Z']))
            (hexDecodeChars (joinOnChar ':' [hexEncodeBytes (C.blockEnc iv s)])) with
          | none => Except.error DecodeFailure.badDecrypt
          | some s => Except.ok s
        else Except.error DecodeFailure.invalidIV) = Except.ok s
      rw [joinOnChar_single, hdec, hexDecodeChars_hexEncodeBytes _ hct, if_pos hlen,
        C.blockDec_blockEnc iv s]
    · show (hexEncodeBytes iv ++ ['Z']).all (fun c => (hexDigitVal c).isSome) = false
      rw [List.all_append]
      simp [hexDigitVal]

/-- Witness for the amended C3: the two spec examples fail (the first by
the no-delimiter conjunct, the second by the 16-byte conjunct since its
lenient decode is four bytes), and the leniency conjunct applies at a
concrete IV and plaintext. -/
theorem claimC3_amended_witness :
    (∃ e, decrypt idSuite "not-a-valid-record" = .error e) ∧
    (∃ e, decrypt idSuite "deadbeef" = .error e) ∧
    (decrypt idSuite (String.mk
        (hexEncodeBytes ivZeros ++ 'Z' :: ':' :: hexEncodeBytes (idSuite.blockEnc ivZeros "hi"))) =
        .ok "hi" ∧
      isHexString (String.mk (hexEncodeBytes ivZeros ++ ['Z'])) = false) :=
  ⟨claimC3_amended.1 idSuite "not-a-valid-record" (by decide),
   claimC3_amended.2.1 idSuite "deadbeef" "deadbeef".data [] (by decide) (by decide),
   claimC3_amended.2.2 idSuite ivZeros "hi" (by decide) (by decide)⟩

/-! ## Broker lemmas and claims C1, C8, C9 -/

theorem pollGET_waiting (ef : String → String) (s : BrokerState) (id : String)
    (hid : id ≠ "") (h : s.artifacts id = none) :
    pollGET ef s (some id) = (.waiting, s) := by
  simp only [pollGET]
  rw [if_neg hid, h]

theorem pollN_waiting (ef : String → String) (s : BrokerState) (id : String)
    (hid : id ≠ "") (h : s.artifacts id = none) :
    ∀ n, pollN ef s id n = (.waiting, s) := by
  intro n
  induction n with
  | zero => exact pollGET_waiting ef s id hid h
  | succ n ih =>
    show pollGET ef (pollN ef s id n).2 (some id) = _
    rw [ih]
    exact pollGET_waiting ef s id hid h

/-- C1: once a poll has returned a terminal status obtained by actually
reading the artifact (anything other than waiting, the missing-id 400, and
the failed-read error whose artifact was never parsed), every subsequent
poll of the same id answers waiting: the artifact is unlinked before the
response is produced and a terminal result is never delivered twice. -/
theorem claimC1_poll_exactly_once (ef : String → String) (s : BrokerState) (id : String)
    (r : PollResponse) (s' : BrokerState)
    (h : pollGET ef s (some id) = (r, s'))
    (hw : r ≠ .waiting) (hb : r ≠ .badRequest) (he : r ≠ .errorRead) :
    ∀ n, (pollN ef s' id n).1 = .waiting := by
  have hid : id ≠ "" := by
    intro hid
    subst hid
    simp only [pollGET] at h
    simp only [if_true] at h
    injection h with hr hs
    exact hb hr.symm
  have hnone : s'.artifacts id = none := by
    simp only [pollGET] at h
    rw [if_neg hid] at h
    cases ha : s.artifacts id with
    | none =>
      rw [ha] at h
      injection h with hr hs
      exact absurd hr.symm hw
    | some content =>
      cases content with
      | malformed =>
        rw [ha] at h
        injection h with hr hs
        exact absurd hr.symm he
      | success c =>
        rw [ha] at h
        cases hdb : s.dbOk with
        | true =>
          rw [hdb] at h
          simp only [if_true] at h
          injection h with hr hs
          rw [← hs]
          simp [removeArtifact]
        | false =>
          rw [hdb] at h
          simp only [Bool.false_eq_true, if_false] at h
          injection h with hr hs
          rw [← hs]
          simp [removeArtifact]
      | timeout =>
        rw [ha] at h
        injection h with hr hs
        rw [← hs]
        simp [removeArtifact]
  intro n
  rw [pollN_waiting ef s' id hid hnone n]

/-- Witness for C1: a pending success artifact for s1 is consumed by the
first poll (which returns connected) and the third poll after it still
answers waiting. -/
theorem claimC1_poll_exactly_once_witness :
    (pollN (fun t => t) ((pollGET (fun t => t) brokerOk (some "s1")).2) "s1" 2).1 = .waiting :=
  claimC1_poll_exactly_once (fun t => t) brokerOk "s1"
    (pollGET (fun t => t) brokerOk (some "s1")).1
    (pollGET (fun t => t) brokerOk (some "s1")).2
    rfl (by decide) (by decide) (by decide) 2

/-- C8: consuming a success artifact and persisting its token are not
atomic.  The route unlinks the artifact before the encrypt-and-insert, so
when the insert fails the poll answers the save error while the artifact is
already gone, the account store is unchanged (the observed token is never
persisted), and every subsequent poll of that id answers waiting. -/
theorem claimC8_nonatomic_consume (ef : String → String) (s : BrokerState) (id c : String)
    (hid : id ≠ "") (ha : s.artifacts id = some (.success c)) (hdb : s.dbOk = false) :
    (pollGET ef s (some id)).1 = .errorSave ∧
    (pollGET ef s (some id)).2.artifacts id = none ∧
    (pollGET ef s (some id)).2.accounts = s.accounts ∧
    ∀ n, (pollN ef (pollGET ef s (some id)).2 id n).1 = .waiting := by
  have hpoll : pollGET ef s (some id) = (.errorSave, removeArtifact s id) := by
    simp only [pollGET]
    rw [if_neg hid, ha, hdb]
    rfl
  rw [hpoll]
  refine ⟨rfl, by simp [removeArtifact], rfl, ?_⟩
  intro n
  rw [pollN_waiting ef (removeArtifact s id) id hid (by simp [removeArtifact]) n]

/-- Witness for C8: with the insert failing, polling s1 returns the save
error, the artifact is gone, no account row was added and the next poll
answers waiting. -/
theorem claimC8_nonatomic_consume_witness :
    (pollGET (fun t => t) brokerDbDown (some "s1")).1 = .errorSave ∧
    (pollGET (fun t => t) brokerDbDown (some "s1")).2.artifacts "s1" = none ∧
    (pollGET (fun t => t) brokerDbDown (some "s1")).2.accounts = brokerDbDown.accounts ∧
    (pollN (fun t => t) (pollGET (fun t => t) brokerDbDown (some "s1")).2 "s1" 0).1 = .waiting := by
  have h := claimC8_nonatomic_consume (fun t => t) brokerDbDown "s1" "tok"
    (by decide) (by decide) rfl
  exact ⟨h.1, h.2.1, h.2.2.1, h.2.2.2 0⟩

/-- C9: an artifact file whose contents JSON.parse rejects makes the poll
answer the failed-read error and leaves the file in place (the unlink is
unreachable past the throw), so every subsequent poll of the same id
re-attempts the read and keeps answering that error instead of waiting. -/
theorem claimC9_malformed_artifact_kept (ef : String → String) (s : BrokerState) (id : String)
    (hid : id ≠ "") (ha : s.artifacts id = some .malformed) :
    pollGET ef s (some id) = (.errorRead, s) ∧
    ∀ n, (pollN ef s id n).1 = .errorRead := by
  have hpoll : pollGET ef s (some id) = (.errorRead, s) := by
    simp only [pollGET]
    rw [if_neg hid, ha]
  refine ⟨hpoll, ?_⟩
  have hconst : ∀ n, pollN ef s id n = (.errorRead, s) := by
    intro n
    induction n with
    | zero => exact hpoll
    | succ n ih =>
      show pollGET ef (pollN ef s id n).2 (some id) = _
      rw [ih]
      exact hpoll
  intro n
  rw [hconst n]

/-- Witness for C9: a malformed artifact for s1 yields the read error with
the state unchanged, and the second poll still yields it. -/
theorem claimC9_malformed_artifact_kept_witness :
    pollGET (fun t => t) brokerBadFile (some "s1") = (.errorRead, brokerBadFile) ∧
    (pollN (fun t => t) brokerBadFile "s1" 1).1 = .errorRead := by
  have h := claimC9_malformed_artifact_kept (fun t => t) brokerBadFile "s1"
    (by decide) (by decide)
  exact ⟨h.1, h.2 1⟩

/-! ## Collection lemmas and claims C6, C7, C10 -/

theorem foldl_phase3Step_eq :
    ∀ (items : List RawExtract) (m : List SavedPost) (seen : List String),
      (∀ i ∈ items, i.postUrn ≠ "") →
      (∀ u, u ∈ seen ↔ (m.any fun p => p.postUrn = u) = true) →
      items.foldl phase3Step m = m ++ (specDedupGo seen items).map toSaved := by
  intro items
  induction items with
  | nil => intro m seen _ _; simp [specDedupGo]
  | cons i rest ih =>
    intro m seen hne hiff
    have hne0 : i.postUrn ≠ "" := hne i (by simp)
    have hnerest : ∀ x ∈ rest, x.postUrn ≠ "" := fun x hx => hne x (List.mem_cons_of_mem i hx)
    simp only [List.foldl_cons, specDedupGo]
    by_cases hmem : i.postUrn ∈ seen
    · have hany : (m.any fun p => p.postUrn = i.postUrn) = true := (hiff _).mp hmem
      rw [if_pos hmem]
      have hstep : phase3Step m i = m := by
        unfold phase3Step
        rw [if_neg hne0, if_pos hany]
      rw [hstep]
      exact ih m seen hnerest hiff
    · have hany : ¬ (m.any fun p => p.postUrn = i.postUrn) = true :=
        fun hc => hmem ((hiff _).mpr hc)
      rw [if_neg hmem]
      have hstep : phase3Step m i = m ++ [toSaved i] := by
        unfold phase3Step
        rw [if_neg hne0, if_neg hany]
      rw [hstep]
      rw [ih (m ++ [toSaved i]) (i.postUrn :: seen) hnerest ?_]
      · simp
      · intro u
        constructor
        · intro hu
          rcases List.mem_cons.mp hu with h | h
          · subst h
            simp [List.any_append, toSaved]
          · have := (hiff u).mp h
            simp [List.any_append, this]
        · intro hu
          rw [List.any_append] at hu
          have hu2 : (m.any fun p => p.postUrn = u) = true ∨
              ([toSaved i].any fun p => p.postUrn = u) = true := by simpa using hu
          rcases hu2 with h | h
          · exact List.mem_cons_of_mem _ ((hiff u).mpr h)
          · simp only [List.any_cons, List.any_nil, Bool.or_false, toSaved,
              decide_eq_true_eq] at h
            rw [← h]
            exact List.mem_cons_self _ _

/-- C6: for every raw item list whose urns are all non-empty (which is what
phase 2 extraction produces), the collection output is exactly the
first-occurrence deduplication by urn in first-seen order, truncated to the
first 30 entries, where the deduplication is the spec-worded
specDedupFirstSeen. -/
theorem claimC6_dedup_window (items : List RawExtract)
    (h : ∀ i ∈ items, i.postUrn ≠ "") :
    phase3 items = ((specDedupFirstSeen items).map toSaved).take 30 := by
  unfold phase3 specDedupFirstSeen
  rw [foldl_phase3Step_eq items [] [] h ?_]
  · simp
  · intro u
    simp

set_option maxRecDepth 8000 in
/-- Witness for C6 at the two spec examples: the A, A, B list dedups to the
first A then B, and 45 distinct items window to exactly the first 30 in
first-seen order. -/
theorem claimC6_dedup_window_witness :
    phase3 exAAB = ((specDedupFirstSeen exAAB).map toSaved).take 30 ∧
    phase3 exAAB =
      [ { postUrn := "A", postUrl := "url-one", posted_at := "" },
        { postUrn := "B", postUrl := "url-three", posted_at := "" } ] ∧
    phase3 ex45 = ((specDedupFirstSeen ex45).map toSaved).take 30 ∧
    (phase3 ex45).length = 30 ∧
    phase3 ex45 = (ex45.take 30).map toSaved := by
  have h1 := claimC6_dedup_window exAAB (by decide)
  have h2 := claimC6_dedup_window ex45 (by decide)
  exact ⟨h1, by decide, h2, by decide, by decide⟩

theorem foldl_phase3Step_ne_empty :
    ∀ (items : List RawExtract) (m : List SavedPost),
      (∀ p ∈ m, p.postUrn ≠ "") → ∀ p ∈ items.foldl phase3Step m, p.postUrn ≠ "" := by
  intro items
  induction items with
  | nil => intro m hm p hp; exact hm p hp
  | cons i rest ih =>
    intro m hm p hp
    simp only [List.foldl_cons] at hp
    refine ih (phase3Step m i) ?_ p hp
    intro q hq
    unfold phase3Step at hq
    by_cases h0 : i.postUrn = ""
    · rw [if_pos h0] at hq; exact hm q hq
    · rw [if_neg h0] at hq
      by_cases hany : (m.any fun p => p.postUrn = i.postUrn) = true
      · rw [if_pos hany] at hq; exact hm q hq
      · rw [if_neg hany] at hq
        rcases List.mem_append.mp hq with h | h
        · exact hm q h
        · simp only [List.mem_singleton] at h
          rw [h]
          simpa [toSaved] using h0

/-- C10: every reference produced by a collection run has a non-empty urn.
Phase 2 extraction skips any DOM item whose data-urn attribute is missing
or empty, and the phase 3 loop guards against empty urns again, so no
output entry of the dedup-and-window step has an empty urn. -/
theorem claimC10_nonempty_urn :
    (∀ dom : List DomUpdate, ∀ i ∈ extractAll dom, i.postUrn ≠ "") ∧
    (∀ items : List RawExtract, ∀ p ∈ phase3 items, p.postUrn ≠ "") := by
  constructor
  · intro dom i hi
    rw [extractAll, List.mem_filterMap] at hi
    obtain ⟨u, _, hex⟩ := hi
    unfold extractOne at hex
    by_cases hurn : u.dataUrn.getD "" = ""
    · rw [if_pos hurn] at hex
      exact absurd hex (by simp)
    · rw [if_neg hurn] at hex
      simp only [Option.some.injEq] at hex
      rw [← hex]
      exact hurn
  · intro items p hp
    unfold phase3 at hp
    exact foldl_phase3Step_ne_empty items [] (by simp) p (List.take_subset 30 _ hp)

/-- Witness for C10: in a snapshot with a urn-less item, an empty-urn item
and a complete item, the extracted head has a non-empty urn, and so does
the collection output head of a raw list containing an empty urn. -/
theorem claimC10_nonempty_urn_witness :
    ((extractAll dom10).headD { postUrn := "", postUrl := "", timeText := "" }).postUrn ≠ "" ∧
    ((phase3 items10).headD default).postUrn ≠ "" :=
  ⟨claimC10_nonempty_urn.1 dom10 _ (by decide),
   claimC10_nonempty_urn.2 items10 _ (by decide)⟩

/-- C7: when the account exists, its token decrypts, the feed navigation
does not throw, and the landed URL contains the login marker (or the guest
marker), the run ends as session-invalid with nothing written to the
collection artifact (the phase 4 write is the only write to it, so the
stored reference list is unchanged) and the scroll and extraction phases
never run. -/
theorem claimC7_session_precheck (C : CipherSuite) (env : FetchPostsEnv) (a : Account)
    (hacct : env.account = some a)
    (hdec : ∃ t, decrypt C a.li_at_encrypted = .ok t)
    (hnav : env.gotoFeedError = none)
    (hurl : strContains env.currentUrl "login" = true ∨
      strContains env.currentUrl "guest" = true) :
    fetchPosts C env = { outcome := .sessionInvalid, written := none, scrolled := false } := by
  obtain ⟨t, ht⟩ := hdec
  have h1 : fetchPosts C env = fetchPostsValidated env := by
    unfold fetchPosts
    rw [hacct]
    show (match decrypt C a.li_at_encrypted with
      | .error _ =>
        ({ outcome := .fatalError, written := none, scrolled := false } : FetchPostsResult)
      | .ok _ =>
        match env.gotoFeedError with
        | some s =>
          if strContains s "ERR_TOO_MANY_REDIRECTS" || strContains s "ERR_ABORTED" then
            { outcome := .cookieInvalid, written := none, scrolled := false }
          else fetchPostsValidated env
        | none => fetchPostsValidated env) = fetchPostsValidated env
    rw [ht, hnav]
  rw [h1]
  unfold fetchPostsValidated
  rcases hurl with h | h <;> simp [h]

/-- Witness for C7: a concrete environment landing on the login URL with a
decryptable stored token. -/
theorem claimC7_session_precheck_witness :
    fetchPosts idSuite envLogin =
      { outcome := .sessionInvalid, written := none, scrolled := false } :=
  claimC7_session_precheck idSuite envLogin acctW rfl ⟨"tok", rfl⟩ rfl (Or.inl (by decide))

/-! ## Enrichment lemmas and claims C2, C5 -/

theorem enrichStep_eq_navFail (env : String → PageOutcome) (st : EnrichState) (p : SavedPost)
    (h : env p.postUrn = .navFail) :
    enrichStep env st p =
      { st with errors := st.errors ++ [p.postUrn], visited := st.visited ++ [p.postUrn] } := by
  unfold enrichStep
  rw [h]

theorem enrichStep_eq_zero (env : String → PageOutcome) (st : EnrichState) (p : SavedPost)
    (d : EvalData) (h : env p.postUrn = .page d) (hz : parseIntDigits d.impressionsText = 0) :
    enrichStep env st p = { st with visited := st.visited ++ [p.postUrn] } := by
  unfold enrichStep
  rw [h]
  show (if parseIntDigits d.impressionsText = 0
      then ({ st with visited := st.visited ++ [p.postUrn] } : EnrichState)
      else { st with
             results := st.results ++ [mkEnriched p d (parseIntDigits d.impressionsText)],
             visited := st.visited ++ [p.postUrn] }) =
    { st with visited := st.visited ++ [p.postUrn] }
  rw [if_pos hz]

theorem enrichStep_eq_pos (env : String → PageOutcome) (st : EnrichState) (p : SavedPost)
    (d : EvalData) (h : env p.postUrn = .page d) (hz : ¬ parseIntDigits d.impressionsText = 0) :
    enrichStep env st p =
      { st with
        results := st.results ++ [mkEnriched p d (parseIntDigits d.impressionsText)],
        visited := st.visited ++ [p.postUrn] } := by
  unfold enrichStep
  rw [h]
  show (if parseIntDigits d.impressionsText = 0
      then ({ st with visited := st.visited ++ [p.postUrn] } : EnrichState)
      else { st with
             results := st.results ++ [mkEnriched p d (parseIntDigits d.impressionsText)],
             visited := st.visited ++ [p.postUrn] }) = _
  rw [if_neg hz]

theorem enrichStep_visited (env : String → PageOutcome) (st : EnrichState) (p : SavedPost) :
    (enrichStep env st p).visited = st.visited ++ [p.postUrn] := by
  cases henv : env p.postUrn with
  | navFail => rw [enrichStep_eq_navFail env st p henv]
  | page d =>
    by_cases hz : parseIntDigits d.impressionsText = 0
    · rw [enrichStep_eq_zero env st p d henv hz]
    · rw [enrichStep_eq_pos env st p d henv hz]

theorem enrichLoop_visited (env : String → PageOutcome) :
    ∀ (posts : List SavedPost) (st0 st : EnrichState),
      enrichLoop env posts st0 = some st →
      st.visited = st0.visited ++ posts.map (fun p => p.postUrn) := by
  intro posts
  induction posts with
  | nil =>
    intro st0 st h
    simp only [enrichLoop, Option.some.injEq] at h
    rw [← h]
    simp
  | cons p rest ih =>
    intro st0 st h
    simp only [enrichLoop] at h
    by_cases h0 : p.postUrn = ""
    · rw [if_pos h0] at h
      exact absurd h (by simp)
    · rw [if_neg h0] at h
      rw [ih (enrichStep env st0 p) st h, enrichStep_visited]
      simp

/-- Invariant of the enrichment loop state: every accumulated result has
its impressions field equal to the parse of its impressions text, positive,
and its urn among the visited urns. -/
def stInv (st : EnrichState) : Prop :=
  ∀ e ∈ st.results,
    e.impressions = parseIntDigits e.impressionsText ∧ 0 < e.impressions ∧
    e.postUrn ∈ st.visited

theorem enrichStep_inv (env : String → PageOutcome) (st : EnrichState) (p : SavedPost)
    (h : stInv st) : stInv (enrichStep env st p) := by
  cases henv : env p.postUrn with
  | navFail =>
    rw [enrichStep_eq_navFail env st p henv]
    intro e he
    obtain ⟨h1, h2, h3⟩ := h e he
    exact ⟨h1, h2, List.mem_append_left _ h3⟩
  | page d =>
    by_cases hz : parseIntDigits d.impressionsText = 0
    · rw [enrichStep_eq_zero env st p d henv hz]
      intro e he
      obtain ⟨h1, h2, h3⟩ := h e he
      exact ⟨h1, h2, List.mem_append_left _ h3⟩
    · rw [enrichStep_eq_pos env st p d henv hz]
      intro e he
      rcases List.mem_append.mp he with hm | hm
      · obtain ⟨h1, h2, h3⟩ := h e hm
        exact ⟨h1, h2, List.mem_append_left _ h3⟩
      · simp only [List.mem_singleton] at hm
        subst hm
        refine ⟨rfl, ?_, ?_⟩
        · show 0 < parseIntDigits d.impressionsText
          omega
        · exact List.mem_append_right _ (by simp [mkEnriched])

theorem enrichLoop_inv (env : String → PageOutcome) :
    ∀ (posts : List SavedPost) (st0 st : EnrichState),
      stInv st0 → enrichLoop env posts st0 = some st → stInv st := by
  intro posts
  induction posts with
  | nil =>
    intro st0 st h0 h
    simp only [enrichLoop, Option.some.injEq] at h
    rw [← h]
    exact h0
  | cons p rest ih =>
    intro st0 st h0 h
    simp only [enrichLoop] at h
    by_cases hz : p.postUrn = ""
    · rw [if_pos hz] at h
      exact absurd h (by simp)
    · rw [if_neg hz] at h
      exact ih (enrichStep env st0 p) st (enrichStep_inv env st0 p h0) h

theorem fetchAnalytics_some (C : CipherSuite) (acct : Option Account)
    (env : String → PageOutcome) (posts : List SavedPost) (r : AnalyticsResult)
    (h : fetchAnalytics C acct env posts = some r) :
    ∃ a t st, acct = some a ∧ decrypt C a.li_at_encrypted = .ok t ∧
      enrichLoop env (posts.take 5) { results := [], errors := [], visited := [] } = some st ∧
      r = { written := st.results.filter fun x => decide (0 < parseIntDigits x.impressionsText),
            errors := st.errors, visited := st.visited } := by
  unfold fetchAnalytics at h
  by_cases hpe : posts.isEmpty
  · rw [if_pos hpe] at h
    exact absurd h (by simp)
  · rw [if_neg hpe] at h
    cases acct with
    | none => exact absurd h (by simp)
    | some a =>
      have h2 : (match decrypt C a.li_at_encrypted with
          | Except.error _ => (none : Option AnalyticsResult)
          | Except.ok _ =>
            match enrichLoop env (posts.take 5) { results := [], errors := [], visited := [] } with
            | none => none
            | some st =>
              some { written :=
                       st.results.filter fun x => decide (0 < parseIntDigits x.impressionsText),
                     errors := st.errors, visited := st.visited }) = some r := h
      cases hdec : decrypt C a.li_at_encrypted with
      | error err =>
        rw [hdec] at h2
        exact absurd h2 (by simp)
      | ok t =>
        rw [hdec] at h2
        cases hloop : enrichLoop env (posts.take 5)
            { results := [], errors := [], visited := [] } with
        | none =>
          rw [hloop] at h2
          exact absurd h2 (by simp)
        | some st =>
          rw [hloop] at h2
          simp only [Option.some.injEq] at h2
          subst h2
          exact ⟨a, t, st, rfl, hdec, rfl, rfl⟩

/-- C2 counterexample: with six distinct references, every detail page
reporting positive impressions, and a decryptable account, the run
navigates only to the first five urns; the sixth reference is in the input
but is never visited, so the output is derived from a proper prefix of the
references, contradicting the claim that every reference is processed. -/
theorem claimC2_counterexample :
    "u6" ∈ posts6.map (fun p => p.postUrn) ∧
    ((fetchAnalytics idSuite (some acctW) envAllPos posts6).getD
        { written := [], errors := [], visited := [] }).visited =
      ["u1", "u2", "u3", "u4", "u5"] ∧
    "u6" ∉ ((fetchAnalytics idSuite (some acctW) envAllPos posts6).getD
        { written := [], errors := [], visited := [] }).visited := by
  refine ⟨by decide, by decide, by decide⟩

/-- C2 as amended: the enrichment operation processes the references of the
five-element prefix of its input (the run limits itself to
posts.slice(0, 5)), one at a time in order; each of those is navigated to
and subjected to extraction or per-item failure handling, and the output is
derived from that prefix - every written entry's urn is among the visited
urns - while references beyond the fifth are never navigated. -/
theorem claimC2_amended_take5 (C : CipherSuite) (acct : Option Account)
    (env : String → PageOutcome) (posts : List SavedPost) (r : AnalyticsResult)
    (h : fetchAnalytics C acct env posts = some r) :
    r.visited = (posts.take 5).map (fun p => p.postUrn) ∧
    ∀ e ∈ r.written, e.postUrn ∈ r.visited := by
  obtain ⟨a, t, st, -, -, hloop, hr⟩ := fetchAnalytics_some C acct env posts r h
  have hvis := enrichLoop_visited env (posts.take 5) _ st hloop
  have hinv := enrichLoop_inv env (posts.take 5) _ st (by intro e he; simp at he) hloop
  constructor
  · rw [hr]
    simpa using hvis
  · intro e he
    rw [hr] at he ⊢
    have hemem : e ∈ st.results := List.mem_of_mem_filter he
    exact (hinv e hemem).2.2

/-- Witness for the amended C2: with six distinct references the visited
urns are exactly the first five in order, and the head of the written
output has its urn among them. -/
theorem claimC2_amended_take5_witness :
    ((fetchAnalytics idSuite (some acctW) envAllPos posts6).getD
        { written := [], errors := [], visited := [] }).visited =
      (posts6.take 5).map (fun p => p.postUrn) ∧
    (((fetchAnalytics idSuite (some acctW) envAllPos posts6).getD
        { written := [], errors := [], visited := [] }).written.headD default).postUrn ∈
      ((fetchAnalytics idSuite (some acctW) envAllPos posts6).getD
        { written := [], errors := [], visited := [] }).visited := by
  have h := claimC2_amended_take5 idSuite (some acctW) envAllPos posts6
    ((fetchAnalytics idSuite (some acctW) envAllPos posts6).getD
      { written := [], errors := [], visited := [] }) rfl
  exact ⟨h.1, h.2 _ (by decide)⟩

/-- C5: every entry of the enrichment artifact has strictly positive
impressions - a zero-count item contributes nothing and is not recorded as
an error either (second conjunct: its iteration only appends the urn to the
visited log, leaving results and errors untouched), and the final filter
re-applies the positive-impressions predicate before the write. -/
theorem claimC5_positive_impressions :
    (∀ (C : CipherSuite) (acct : Option Account) (env : String → PageOutcome)
        (posts : List SavedPost) (r : AnalyticsResult),
      fetchAnalytics C acct env posts = some r →
      ∀ e ∈ r.written, 0 < e.impressions) ∧
    (∀ (env : String → PageOutcome) (st : EnrichState) (p : SavedPost) (d : EvalData),
      env p.postUrn = .page d → parseIntDigits d.impressionsText = 0 →
      enrichStep env st p = { st with visited := st.visited ++ [p.postUrn] }) := by
  constructor
  · intro C acct env posts r h e he
    obtain ⟨a, t, st, -, -, hloop, hr⟩ := fetchAnalytics_some C acct env posts r h
    have hinv := enrichLoop_inv env (posts.take 5) _ st (by intro x hx; simp at hx) hloop
    rw [hr] at he
    have hemem : e ∈ st.results := List.mem_of_mem_filter he
    exact (hinv e hemem).2.1
  · intro env st p d henv hz
    exact enrichStep_eq_zero env st p d henv hz

/-- Witness for C5: with one zero-count and one positive-count reference,
the written head has positive impressions, and the zero-count step only
logs the visit. -/
theorem claimC5_positive_impressions_witness :
    0 < (((fetchAnalytics idSuite (some acctW) envZP postsZP).getD
        { written := [], errors := [], visited := [] }).written.headD default).impressions ∧
    enrichStep envZP { results := [], errors := [], visited := [] }
        { postUrn := "z1", postUrl := "", posted_at := "" } =
      { results := [], errors := [], visited := ([] : List String) ++ ["z1"] } :=
  ⟨claimC5_positive_impressions.1 idSuite (some acctW) envZP postsZP
      ((fetchAnalytics idSuite (some acctW) envZP postsZP).getD
        { written := [], errors := [], visited := [] }) rfl _ (by decide),
   claimC5_positive_impressions.2 envZP { results := [], errors := [], visited := [] }
      { postUrn := "z1", postUrl := "", posted_at := "" } dZero rfl rfl⟩
